import Mathlib

/-!
Verification development for the traderdesk_v2 repository.

The definitions below are shallow embeddings of the Python source:

* `signal_cross50_with_bias` embeds `_signal_cross50_with_bias`
  (app/services/market_monitor.py).
* `round_to_tick`, `bracket_prices` embed `_round_to_tick` and the
  exit-price computation of `_place_market_and_brackets`
  (timed_signal_trader.py, signal_trader.py).
* `poll_fill_price`, `place_market_and_brackets` embed `_poll_fill_price`
  and the leg-placement control flow of `_place_market_and_brackets`.
* `timed_trader_step` embeds the per-symbol decision part of the main loop
  of timed_signal_trader.py (signal gate, duplicate gate, dry-run split,
  error handling, update of `last_sent_by_symbol`).
* `record_seen` embeds the seen-signals ledger update of
  app/trading/signal_trader.py.
* `ema_indicator` embeds `ema` (app/indicators/ema.py) with both of its
  branches: `ema_col` is the in-repository pandas fallback
  `Series.ewm(span=period, adjust=False, min_periods=period).mean()`, and
  `ta_EMA` models the external TA-Lib delegation taken when the optional
  dependency imports (`HAVE_TALIB`); `none` models a NaN entry.
* `MonState`, `seed_from_history`, `recalc_tail`, `advance_incremental`,
  `snapshot_bar_action` embed the MarketMonitor state dictionary and the
  corresponding methods of app/services/market_monitor.py.  Timestamps are
  modelled as integers (seconds); floats are modelled as rationals, with
  `Option` distinguishing missing (`None`) or undefined (NaN) values.
-/

namespace TraderDesk

attribute [local semireducible] Rat.mul Rat.inv Rat.add Rat.sub Rat.ofScientific

set_option maxRecDepth 100000

/-- Directional trading signal, the values "LONG" / "SHORT" of the source. -/
inductive Sig
  | LONG
  | SHORT
deriving DecidableEq, Repr

/-- Default cross tolerance, env `EMA_CROSS_EPS` (market_monitor.py line 41). -/
def EPS : ℚ := 0

/-- Embeds `_signal_cross50_with_bias` (market_monitor.py lines 124-144):
bias from base EMA50 vs base EMA200, signal on a close/EMA50 cross. -/
def signal_cross50_with_bias (eps prev_close prev_e50 curr_close curr_e50
    curr_e200_base : ℚ) : Option Sig :=
  if curr_e50 - curr_e200_base > eps then
    if prev_close < prev_e50 - eps ∧ curr_close > curr_e50 + eps then
      some Sig.LONG
    else none
  else if curr_e200_base - curr_e50 > eps then
    if prev_close > prev_e50 + eps ∧ curr_close < curr_e50 - eps then
      some Sig.SHORT
    else none
  else none

/-- Floor of a rational, computed on the numerator and denominator. -/
def ratFloor (x : ℚ) : ℤ := x.num.fdiv x.den

/-- Python's builtin `round` to an integer: round half to even. -/
def roundHalfEven (x : ℚ) : ℤ :=
  let f : ℤ := ratFloor x
  let r : ℚ := x - f
  if r < 1 / 2 then f
  else if 1 / 2 < r then f + 1
  else if f % 2 = 0 then f else f + 1

/-- Python's `round(x, d)`: round half to even at `d` decimal places. -/
def roundDigits (d : ℕ) (x : ℚ) : ℚ :=
  (roundHalfEven (x * 10 ^ d) : ℚ) / 10 ^ d

/-- Embeds `_round_to_tick` (timed_signal_trader.py lines 74-75):
`round(round(price / tick) * tick, 10)`. -/
def round_to_tick (price tick : ℚ) : ℚ :=
  roundDigits 10 ((roundHalfEven (price / tick) : ℚ) * tick)

/-- Exit prices of `_place_market_and_brackets`
(timed_signal_trader.py lines 198-207): take-profit and stop-loss from the
fill price; side 0 is Buy, side 1 is Sell. -/
def bracket_prices (side : ℕ) (fill tp_points sl_points tick : ℚ) : ℚ × ℚ :=
  if side = 0 then
    (round_to_tick (fill + tp_points) tick, round_to_tick (fill - sl_points) tick)
  else
    (round_to_tick (fill - tp_points) tick, round_to_tick (fill + sl_points) tick)

/-- What `get_snapshot` does with a newly fetched closed bar
(market_monitor.py lines 425-442). -/
inductive BarAction
  | reseed
  | advanceBar
  | keep
deriving DecidableEq, Repr

/-- Gap threshold in seconds: `20 * 60` (market_monitor.py line 427). -/
def GAP_SECONDS : ℤ := 20 * 60

/-- Embeds the dispatch of `get_snapshot` on the last closed bar
(market_monitor.py lines 425-438): re-seed when the gap from `curr_ts`
exceeds 20 minutes, advance incrementally when the bar is newer, otherwise
leave the state as is.  Timestamps are in seconds. -/
def snapshot_bar_action (curr_ts : Option ℤ) (ts : ℤ) : BarAction :=
  match curr_ts with
  | none => BarAction.reseed
  | some t =>
    if ts - t > GAP_SECONDS then BarAction.reseed
    else if t < ts then BarAction.advanceBar
    else BarAction.keep

/-- Events appended to the trade log by timed_signal_trader.py. -/
inductive TradeEvent
  | dryRunSignal
  | orderSent
  | orderError
deriving DecidableEq, Repr

/-- Observable outcome of one per-symbol pass of the timed trader loop:
whether `_place_market_and_brackets` was invoked, which log events were
written, and the new `last_sent_by_symbol` entry for the symbol. -/
structure StepResult where
  submitted : Bool
  logged : List TradeEvent
  lastSent : Option String
deriving DecidableEq, Repr

/-- Embeds the decision part of the per-symbol loop body of
timed_signal_trader.py `main` (lines 306-348): skip when there is no
signal, skip when `last_sent_by_symbol` already holds this `as_of`,
otherwise either log a dry-run event or attempt the bracket placement
(`placementFails` models `_place_market_and_brackets` raising), and in
every non-skipped branch set `last_sent_by_symbol[sym] = snap.as_of`
(line 348 runs after both the success and the except branch). -/
def timed_trader_step (dryRun placementFails : Bool) (lastSent : Option String)
    (signal : Option Sig) (asOf : String) : StepResult :=
  if signal = none then ⟨false, [], lastSent⟩
  else if lastSent = some asOf then ⟨false, [], lastSent⟩
  else if dryRun then ⟨false, [TradeEvent.dryRunSignal], some asOf⟩
  else if placementFails then ⟨true, [TradeEvent.orderError], some asOf⟩
  else ⟨true, [TradeEvent.orderSent], some asOf⟩

/-- The timed trader starts with `last_sent_by_symbol: Dict[str, str] = {}`
(timed_signal_trader.py line 251), so after a process restart the
per-symbol entry is `none` again. -/
def initial_last_sent : Option String := none

/-- String form of a signal as used in the ledger key (`None` for no signal). -/
def sigStr : Option Sig → String
  | none => "None"
  | some Sig.LONG => "LONG"
  | some Sig.SHORT => "SHORT"

/-- Embeds `_event_id` (app/trading/signal_trader.py lines 143-144). -/
def event_id (sym asOf : String) (signal : Option Sig) : String :=
  sym ++ "|" ++ asOf ++ "|" ++ sigStr signal

/-- Embeds the seen-signals ledger update of app/trading/signal_trader.py
(lines 276-280): `if ev_id not in seen: seen.add(ev_id); _save_seen(seen)`. -/
def record_seen (seen : List String) (ev : String) : List String :=
  if ev ∈ seen then seen else seen ++ [ev]

/-- A trade record as inspected by `_poll_fill_price`; `price = none` models
a `price` field that `float(...)` cannot parse. -/
structure Trade where
  contractId : String
  price : Option ℚ
deriving DecidableEq

/-- One scan of `search_trades` output inside `_poll_fill_price`
(timed_signal_trader.py lines 101-107): iterate `reversed(trades)` and
return the first parseable price whose `contractId` matches. -/
def find_fill_in_trades (trades : List Trade) (cid : String) : Option ℚ :=
  trades.reverse.findSome? fun tr => if tr.contractId = cid then tr.price else none

/-- Fill polling timeout in seconds, `max_wait_sec: int = 30`
(timed_signal_trader.py line 97), polled at 1-second intervals. -/
def MAX_WAIT_SEC : ℕ := 30

/-- Fuel form of the polling loop of `_poll_fill_price`: `pollTrades i` is
what `search_trades` returns on the attempt made after waiting `i` seconds. -/
def poll_fill_price_go (pollTrades : ℕ → List Trade) (cid : String) :
    ℕ → ℕ → Option ℚ
  | _, 0 => none
  | waited, fuel + 1 =>
    match find_fill_in_trades (pollTrades waited) cid with
    | some p => some p
    | none => poll_fill_price_go pollTrades cid (waited + 1) fuel

/-- Embeds `_poll_fill_price` (timed_signal_trader.py lines 97-109). -/
def poll_fill_price (pollTrades : ℕ → List Trade) (cid : String)
    (max_wait : ℕ) : Option ℚ :=
  poll_fill_price_go pollTrades cid 0 max_wait

/-- The order ids and prices accumulated by `_place_market_and_brackets`
(timed_signal_trader.py lines 179-226, the `out` dictionary). -/
structure BracketOut where
  parent_order_id : Option ℕ
  fill_price : Option ℚ
  tp_order_id : Option ℕ
  sl_order_id : Option ℕ
  tp_price : Option ℚ
  sl_price : Option ℚ
deriving DecidableEq, Repr

/-- Python truthiness of the polled fill: `if not fill` is taken both for
`None` and for a fill price of `0.0`. -/
def fill_falsy : Option ℚ → Bool
  | none => true
  | some v => v = 0

/-- Embeds the control flow of `_place_market_and_brackets`
(timed_signal_trader.py lines 170-226): place the parent market order,
poll for a fill, and stop with only the parent placed when no fill was
seen; otherwise compute tick-rounded exits and place both legs.
`parentId`, `tpId`, `slId` model the order ids acknowledged by the broker. -/
def place_market_and_brackets (pollTrades : ℕ → List Trade) (cid : String)
    (side : ℕ) (parentId tpId slId : ℕ)
    (tp_points sl_points tick : ℚ) : BracketOut :=
  let fill := poll_fill_price pollTrades cid MAX_WAIT_SEC
  if fill_falsy fill then
    ⟨some parentId, fill, none, none, none, none⟩
  else
    let f := fill.getD 0
    let prices := bracket_prices side f tp_points sl_points tick
    ⟨some parentId, fill, some tpId, some slId, some prices.1, some prices.2⟩

/-- One step of the exponential moving average recurrence as executed by
`Series.ewm(span, adjust=False).mean()`:
`y_t = y_(t-1) + alpha * (x_t - y_(t-1))`. -/
def ema_step (alpha e c : ℚ) : ℚ := e + alpha * (c - e)

/-- The running values of `ewm(adjust=False).mean()` starting from seed `e`. -/
def ewm_go (alpha : ℚ) (e : ℚ) : List ℚ → List ℚ
  | [] => [e]
  | c :: cs => e :: ewm_go alpha (ema_step alpha e c) cs

/-- Values of `Series.ewm(span, adjust=False).mean()`: the first sample
seeds the recurrence. -/
def ewm_adjust_false (alpha : ℚ) : List ℚ → List ℚ
  | [] => []
  | c :: cs => ewm_go alpha c cs

/-- The `min_periods=period` masking of pandas: entry `i` is defined only
once `period` observations have been seen, i.e. when `period ≤ i + 1`. -/
def mask_min_periods (period : ℕ) : ℕ → List ℚ → List (Option ℚ)
  | _, [] => []
  | i, y :: ys =>
    (if period ≤ i + 1 then some y else none) :: mask_min_periods period (i + 1) ys

/-- Embeds `ema` (app/indicators/ema.py lines 17-23) in its in-repository
fallback form `s.ewm(span=period, adjust=False, min_periods=period).mean()`
with `alpha = 2 / (period + 1)`; `none` models a NaN entry. -/
def ema_col (period : ℕ) (xs : List ℚ) : List (Option ℚ) :=
  mask_min_periods period 0 (ewm_adjust_false (2 / (period + 1)) xs)

/-- Modelled from the spec wording of the claim: the reference recurrence
`EMA[0] = close[0]`, `EMA[i] = EMA[i-1] + alpha * (close[i] - EMA[i-1])`,
to be compared with the source-derived `ema_col`.  `c0` is `close[0]` and
`cs.getD (i-1) 0` is `close[i]`. -/
def emaSpecRec (alpha c0 : ℚ) (cs : List ℚ) : ℕ → ℚ
  | 0 => c0
  | i + 1 =>
    let e := emaSpecRec alpha c0 cs i
    e + alpha * (cs.getD i 0 - e)

/-- Modelled from TA-Lib, the external library behind the `HAVE_TALIB`
branch of `ema` (app/indicators/ema.py lines 6-10 and 19-21), which is
outside this repository: `ta.EMA(xs, timeperiod=period)` in its default
(Classic) compatibility mode emits NaN before index `period - 1`, seeds
the first defined output at index `period - 1` with the simple moving
average of the first `period` samples, and continues with the recurrence
`y = y + alpha * (x - y)`, `alpha = 2 / (period + 1)`; with fewer than
`period` samples every output is NaN. -/
def ta_EMA (period : ℕ) (xs : List ℚ) : List (Option ℚ) :=
  if period ≤ xs.length ∧ 1 ≤ period then
    List.replicate (period - 1) none ++
      (ewm_go (2 / ((period : ℚ) + 1)) ((xs.take period).sum / (period : ℚ))
        (xs.drop period)).map some
  else List.replicate xs.length none

/-- Embeds `ema` (app/indicators/ema.py lines 17-23) with both of its
branches: delegation to `ta.EMA` when the optional TA-Lib dependency
imports (`HAVE_TALIB`), else the in-repository pandas fallback
`s.ewm(span=period, adjust=False, min_periods=period).mean()`. -/
def ema_indicator (have_talib : Bool) (period : ℕ) (xs : List ℚ) :
    List (Option ℚ) :=
  if have_talib then ta_EMA period xs else ema_col period xs

/-- An input bar: UTC timestamp in seconds and close price. -/
structure Bar where
  ts : ℤ
  close : ℚ
deriving DecidableEq, Repr

/-- MarketMonitor configuration read from the environment:
`REQUIRED_BARS` (default 205), `EMA200_SMOOTH_TYPE == "sma"`,
`EMA200_SMOOTH_LENGTH` (default 9), `CHART_SESSION == "RTH"`. -/
structure Config where
  requiredBars : ℕ
  smoothSma : Bool
  smoothLen : ℕ
  sessionRTH : Bool
deriving DecidableEq, Repr

/-- The default environment of market_monitor.py lines 18-38. -/
def defaultConfig : Config := ⟨205, false, 9, false⟩

/-- Display smoothing is active when `EMA200_SMOOTH_TYPE == "sma"` and
`EMA200_SMOOTH_LENGTH > 1` (market_monitor.py lines 256, 318, 386). -/
def smoothingOn (cfg : Config) : Prop := cfg.smoothSma = true ∧ 1 < cfg.smoothLen

instance (cfg : Config) : Decidable (smoothingOn cfg) := by
  unfold smoothingOn; infer_instance

/-- Insert a bar into a timestamp-sorted list, keeping it sorted. -/
def insert_bar (b : Bar) : List Bar → List Bar
  | [] => [b]
  | c :: cs => if b.ts ≤ c.ts then b :: c :: cs else c :: insert_bar b cs

/-- Sort bars ascending by timestamp (`df.sort_values("datetime")`). -/
def sort_bars : List Bar → List Bar
  | [] => []
  | b :: bs => insert_bar b (sort_bars bs)

/-- Embeds `_bars_to_df` plus the RTH mask of market_monitor.py
(lines 94-101 and 241-245): sort ascending by timestamp, then keep only
in-session bars when the RTH session filter is configured.  `inSession`
abstracts the local wall-clock window test. -/
def prep_bars (cfg : Config) (inSession : ℤ → Bool) (bars : List Bar) : List Bar :=
  let sorted := sort_bars bars
  if cfg.sessionRTH then sorted.filter (fun b => inSession b.ts) else sorted

/-- Close column of a bar frame. -/
def closes (l : List Bar) : List ℚ := l.map Bar.close

/-- Extract a list of defined values; `none` when any entry is NaN. -/
def seqOpt : List (Option ℚ) → Option (List ℚ)
  | [] => some []
  | none :: _ => none
  | some x :: xs => (seqOpt xs).map (fun v => x :: v)

/-- NaN-propagating arithmetic mean, Python `sum(buf) / len(buf)`. -/
def mean_opt (l : List (Option ℚ)) : Option ℚ :=
  match seqOpt l with
  | some vs => some (vs.sum / (vs.length : ℚ))
  | none => none

/-- One entry of `Series.rolling(k).mean()`: the mean of the window ending
at `i`, NaN unless the window is full and NaN-free. -/
def window_mean (k : ℕ) (l : List (Option ℚ)) (i : ℕ) : Option ℚ :=
  if k ≤ i + 1 then
    match seqOpt ((l.drop (i + 1 - k)).take k) with
    | some vs => some (vs.sum / (k : ℚ))
    | none => none
  else none

/-- Embeds `Series.rolling(k).mean()` (market_monitor.py lines 257, 319). -/
def rolling_mean (k : ℕ) (l : List (Option ℚ)) : List (Option ℚ) :=
  (List.range l.length).map (window_mean k l)

/-- The `self.state` dictionary of MarketMonitor (market_monitor.py
lines 169-186).  `none` models Python `None` and NaN. -/
structure MonState where
  seeded : Bool
  bars : ℕ
  prev_ts : Option ℤ
  prev_close : Option ℚ
  prev_e50 : Option ℚ
  prev_e200_base : Option ℚ
  prev_e200 : Option ℚ
  curr_ts : Option ℤ
  curr_close : Option ℚ
  curr_e50 : Option ℚ
  curr_e200_base : Option ℚ
  curr_e200 : Option ℚ
  ema200_buf : List (Option ℚ)
deriving DecidableEq, Repr

/-- The initial state of MarketMonitor (market_monitor.py lines 169-186). -/
def initState : MonState :=
  ⟨false, 0, none, none, none, none, none, none, none, none, none, none, []⟩

/-- The displayed EMA200 column: the optional SMA smoothing of the base
column (market_monitor.py lines 256-259 and 318-321). -/
def shown_e200_col (cfg : Config) (e200b : List (Option ℚ)) : List (Option ℚ) :=
  if cfg.smoothSma = true ∧ 1 < cfg.smoothLen then rolling_mean cfg.smoothLen e200b
  else e200b

/-- The smoothing buffer written by seeding:
`df["ema200_base"].tail(buf_len).tolist()` with
`buf_len = max(1, EMA200_SMOOTH_LENGTH if sma else 1)`
(market_monitor.py lines 266-267 and 324-325). -/
def seed_buf (cfg : Config) (e200b : List (Option ℚ)) : List (Option ℚ) :=
  let buf_len := max 1 (if cfg.smoothSma then cfg.smoothLen else 1)
  e200b.drop (e200b.length - buf_len)

/-- The state written by a successful seed or tail recomputation
(market_monitor.py lines 264-283 and 323-341): `prev`/`curr` become the
last two rows of the frame. -/
def seeded_state (cfg : Config) (df : List Bar) : MonState :=
  let n := df.length
  let cl := closes df
  let e50 := ema_col 50 cl
  let e200b := ema_col 200 cl
  let e200 := shown_e200_col cfg e200b
  { seeded := true
    bars := n
    prev_ts := (df.getD (n - 2) ⟨0, 0⟩).ts
    prev_close := some (df.getD (n - 2) ⟨0, 0⟩).close
    prev_e50 := e50.getD (n - 2) none
    prev_e200_base := e200b.getD (n - 2) none
    prev_e200 := e200.getD (n - 2) none
    curr_ts := (df.getD (n - 1) ⟨0, 0⟩).ts
    curr_close := some (df.getD (n - 1) ⟨0, 0⟩).close
    curr_e50 := e50.getD (n - 1) none
    curr_e200_base := e200b.getD (n - 1) none
    curr_e200 := e200.getD (n - 1) none
    ema200_buf := seed_buf cfg e200b }

/-- Embeds `_seed_from_history` (market_monitor.py lines 224-284): fail
when fewer than `REQUIRED_BARS` bars remain after the session filter, fail
when the last EMA values are still NaN, otherwise overwrite the state from
the last two rows.  The bars argument models what `retrieve_bars`
returned. -/
def seed_from_history (cfg : Config) (inSession : ℤ → Bool) (bars : List Bar)
    (st : MonState) : Bool × MonState :=
  let df := prep_bars cfg inSession bars
  let n := df.length
  if n < cfg.requiredBars then (false, st)
  else
    let cl := closes df
    let e50 := ema_col 50 cl
    let e200 := shown_e200_col cfg (ema_col 200 cl)
    if (e200.getD (n - 1) none) = none ∨ (e50.getD (n - 1) none) = none then
      (false, st)
    else (true, seeded_state cfg df)

/-- Embeds `_recalc_tail` (market_monitor.py lines 287-342): fail when the
raw frame is empty or fewer than `REQUIRED_BARS` bars remain after the
session filter; unlike `_seed_from_history` there is no NaN check before
the state is overwritten. -/
def recalc_tail (cfg : Config) (inSession : ℤ → Bool) (bars : List Bar)
    (st : MonState) : Bool × MonState :=
  if bars.isEmpty then (false, st)
  else
    let df := prep_bars cfg inSession bars
    let n := df.length
    if n < cfg.requiredBars then (false, st)
    else (true, seeded_state cfg df)

/-- EMA coefficient `alpha50 = 2.0 / (50.0 + 1.0)` (market_monitor.py line 189). -/
def alpha50 : ℚ := 2 / (50 + 1)

/-- EMA coefficient `alpha200 = 2.0 / (200.0 + 1.0)` (market_monitor.py line 190). -/
def alpha200 : ℚ := 2 / (200 + 1)

/-- The body of `_advance_incremental` once the timestamp guard has passed
(market_monitor.py lines 369-402): roll `curr` into `prev`, return early
when the previous EMAs are missing, otherwise apply the one-step
recurrence, update the smoothing buffer (append, evict the oldest beyond
the window) and the displayed EMA200, and count the bar. -/
def advance_core (cfg : Config) (st : MonState) (ts : ℤ) (close : ℚ) : MonState :=
  let st1 := { st with
    prev_ts := st.curr_ts
    prev_close := st.curr_close
    prev_e50 := st.curr_e50
    prev_e200_base := st.curr_e200_base
    prev_e200 := st.curr_e200 }
  match st.curr_e50, st.curr_e200_base with
  | some pe50, some pe200 =>
    let ne50 := pe50 + alpha50 * (close - pe50)
    let ne200 := pe200 + alpha200 * (close - pe200)
    if cfg.smoothSma = true ∧ 1 < cfg.smoothLen then
      let buf1 := st1.ema200_buf ++ [some ne200]
      let buf2 := if cfg.smoothLen < buf1.length then buf1.drop 1 else buf1
      { st1 with
        curr_ts := some ts
        curr_close := some close
        curr_e50 := some ne50
        curr_e200_base := some ne200
        curr_e200 := mean_opt buf2
        ema200_buf := buf2
        bars := st1.bars + 1 }
    else
      { st1 with
        curr_ts := some ts
        curr_close := some close
        curr_e50 := some ne50
        curr_e200_base := some ne200
        curr_e200 := some ne200
        bars := st1.bars + 1 }
  | _, _ => st1

/-- Embeds `_advance_incremental` (market_monitor.py lines 366-402):
`if st["curr_ts"] is None or ts > st["curr_ts"]`, else do nothing. -/
def advance_incremental (cfg : Config) (st : MonState) (ts : ℤ) (close : ℚ) :
    MonState :=
  match st.curr_ts with
  | none => advance_core cfg st ts close
  | some t => if t < ts then advance_core cfg st ts close else st

/-- Iterated incremental advances over a list of `(timestamp, close)` bars. -/
def advance_many (cfg : Config) (st : MonState) : List (ℤ × ℚ) → MonState
  | [] => st
  | (ts, c) :: rest => advance_many cfg (advance_incremental cfg st ts c) rest

/-- Ghost trace: the base EMA200 value computed by one advance call, empty
when the call does not reach the recurrence (stale bar or missing state). -/
def advance_emits (st : MonState) (ts : ℤ) (close : ℚ) : List (Option ℚ) :=
  let go : List (Option ℚ) :=
    match st.curr_e50, st.curr_e200_base with
    | some _, some pe200 => [some (pe200 + alpha200 * (close - pe200))]
    | _, _ => []
  match st.curr_ts with
  | none => go
  | some t => if t < ts then go else []

/-- Ghost trace of all base EMA200 values produced by a run of advances. -/
def advance_base_trace (cfg : Config) (st : MonState) :
    List (ℤ × ℚ) → List (Option ℚ)
  | [] => []
  | (ts, c) :: rest =>
    advance_emits st ts c ++
      advance_base_trace cfg (advance_incremental cfg st ts c) rest

/-- Invariant tying a monitor state to a history `H` of base slow-EMA
values: the smoothing buffer is bounded by the window, NaN-free, and —
when display smoothing is active — a suffix of `H` ending in the current
base slow EMA, with the displayed slow EMA equal to the buffer mean; with
smoothing inactive the displayed slow EMA is the base value itself. -/
def advInv (cfg : Config) (H : List (Option ℚ)) (st : MonState) : Prop :=
  st.ema200_buf.length ≤ cfg.smoothLen ∧
  (∀ x ∈ st.ema200_buf, x ≠ none) ∧
  (smoothingOn cfg →
    st.ema200_buf <:+ H ∧
    st.ema200_buf.getLast? = some st.curr_e200_base ∧
    st.curr_e200 = mean_opt st.ema200_buf) ∧
  (¬smoothingOn cfg → st.curr_e200 = st.curr_e200_base)

/-! Concrete instances used by witnesses and counterexamples. -/

/-- A history of 205 fifteen-minute bars with constant close 1. -/
def bars205 : List Bar := (List.range 205).map (fun i => ⟨i * 900, 1⟩)

/-- A history of 208 fifteen-minute bars with constant close 1. -/
def bars208 : List Bar := (List.range 208).map (fun i => ⟨i * 900, 1⟩)

/-- The default configuration with EMA200 display smoothing switched on. -/
def cfg9 : Config := ⟨205, true, 9, false⟩

/-- A configuration with `REQUIRED_BARS` lowered to 5 (env-configurable). -/
def cfgSmall : Config := ⟨5, false, 9, false⟩

/-- Five fifteen-minute bars with constant close 1. -/
def barsSmall : List Bar := [⟨0, 1⟩, ⟨900, 1⟩, ⟨1800, 1⟩, ⟨2700, 1⟩, ⟨3600, 1⟩]

/-- A fully populated seeded state, used to observe overwrites. -/
def stSeeded : MonState :=
  ⟨true, 300, some 0, some 2, some 3, some 4, some 5, some 900, some 6, some 7,
    some 8, some 9, [some 7]⟩

/-! Theorems. -/

/-- C5: with a seeded state at `curr_ts = T`, a closed bar 21 minutes later
forces a full re-seed while a bar 15 minutes later is advanced
incrementally (gap threshold 20 minutes). -/
theorem C5_gap_policy (T : ℤ) :
    snapshot_bar_action (some T) (T + 21 * 60) = BarAction.reseed ∧
    snapshot_bar_action (some T) (T + 15 * 60) = BarAction.advanceBar := by
  unfold snapshot_bar_action GAP_SECONDS
  dsimp only
  constructor
  · rw [if_pos (by omega)]
  · rw [if_neg (by omega), if_pos (by omega)]

/-- C6: `round_to_tick(100.13, 0.25) = 100.25`,
`round_to_tick(100.12, 0.25) = 100.0`, and a SHORT fill at 100.0 with
`tp_points = 8`, `sl_points = 4`, tick 0.25 yields exits
`tp = 92.0`, `sl = 104.0`. -/
theorem C6_tick_rounding_and_short_exits :
    round_to_tick (10013 / 100) (1 / 4) = 10025 / 100 ∧
    round_to_tick (10012 / 100) (1 / 4) = 100 ∧
    bracket_prices 1 100 8 4 (1 / 4) = (92, 104) := by decide

/-- C8: `_advance_incremental` is a no-op, leaving every field of the state
unchanged, whenever the offered bar's timestamp is not strictly newer than
`curr_ts`. -/
theorem C8_advance_noop (cfg : Config) (st : MonState) (t ts : ℤ) (close : ℚ)
    (hcurr : st.curr_ts = some t) (hle : ts ≤ t) :
    advance_incremental cfg st ts close = st := by
  unfold advance_incremental
  rw [hcurr]
  exact if_neg (by omega)

/-- Witness for C8 at a concrete seeded state and a stale bar. -/
theorem C8_advance_noop_witness :
    advance_incremental defaultConfig
      ⟨true, 7, none, none, none, none, none, some 5, some 1, some 1, some 1,
        some 1, [some 1]⟩ 3 7 =
      ⟨true, 7, none, none, none, none, none, some 5, some 1, some 1, some 1,
        some 1, [some 1]⟩ :=
  C8_advance_noop defaultConfig _ 5 3 7 rfl (by decide)

/-- C4 (code bug): at the failing input — live mode, a LONG signal on a
fresh bar, and `_place_market_and_brackets` raising — the loop logs
`ORDER_ERROR` but still records the idempotency key
(`last_sent_by_symbol[sym] = snap.as_of` runs after the except branch,
timed_signal_trader.py line 348, signal_trader.py line 195), contradicting
the in-code comment "si falló, no marques last_sent"
(signal_trader.py line 193). -/
theorem C4_failed_bracket_still_records_key :
    timed_trader_step false true initial_last_sent (some Sig.LONG)
        "2025-06-02T14:45:00Z" =
      ⟨true, [TradeEvent.orderError], some "2025-06-02T14:45:00Z"⟩ := by
  decide

/-- C1 counterexample: the order-submitting loop deduplicates only through
the in-memory `last_sent_by_symbol` dictionary, recreated empty at startup
(timed_signal_trader.py line 251); no persisted ledger is consulted before
submission.  Two runs of the cycle on the same `as_of` bar with a process
restart in between (so both start from `initial_last_sent`) each invoke
the bracket placement: two order submissions for the same
`(symbol, as_of, signal)` key. -/
theorem C1_counterexample_restart_double_submission :
    (timed_trader_step false false initial_last_sent (some Sig.LONG)
        "2025-06-02T14:45:00Z").submitted = true ∧
    (timed_trader_step false false initial_last_sent (some Sig.LONG)
        "2025-06-02T14:45:00Z").lastSent = some "2025-06-02T14:45:00Z" ∧
    (timed_trader_step false false
        ((fun _ => initial_last_sent) ())  -- restart: the dictionary is recreated empty
        (some Sig.LONG) "2025-06-02T14:45:00Z").submitted = true := by
  decide

/-- C1 amended: within a single process run the guarantee holds — running
the per-symbol cycle twice on the same `as_of` bar (the second run seeing
the `last_sent_by_symbol` entry left by the first) never yields two
bracket submissions nor two trade-log entries, and re-recording an event
key in the persisted seen-signals ledger of app/trading/signal_trader.py
never duplicates the entry.  Across a restart the in-memory map is lost
and no persisted ledger is consulted before submission. -/
theorem C1_amended_single_process_idempotent (dryRun placementFails : Bool)
    (lastSent : Option String) (sig : Option Sig) (asOf : String)
    (seen : List String) (ev : String) :
    (¬((timed_trader_step dryRun placementFails lastSent sig asOf).submitted = true ∧
       (timed_trader_step dryRun placementFails
          (timed_trader_step dryRun placementFails lastSent sig asOf).lastSent
          sig asOf).submitted = true)) ∧
    ((timed_trader_step dryRun placementFails lastSent sig asOf).logged ++
       (timed_trader_step dryRun placementFails
          (timed_trader_step dryRun placementFails lastSent sig asOf).lastSent
          sig asOf).logged).length ≤ 1 ∧
    record_seen (record_seen seen ev) ev = record_seen seen ev := by
  refine ⟨?_, ?_, ?_⟩
  · by_cases h1 : sig = none
    · simp [timed_trader_step, h1]
    · by_cases h2 : lastSent = some asOf
      · simp [timed_trader_step, h1, h2]
      · cases dryRun <;> cases placementFails <;>
          simp [timed_trader_step, h1, h2]
  · by_cases h1 : sig = none
    · simp [timed_trader_step, h1]
    · by_cases h2 : lastSent = some asOf
      · simp [timed_trader_step, h1, h2]
      · cases dryRun <;> cases placementFails <;>
          simp [timed_trader_step, h1, h2]
  · by_cases h : ev ∈ seen
    · simp [record_seen, h]
    · simp [record_seen, h]

/-- C2: the arm/trigger cycle as observable signal behaviour of
`_signal_cross50_with_bias` with the default `EPS = 0`.  Bars are indexed
1, 2, 3 with closes `c`, fast EMAs `f`, slow base EMAs `s`; the detector
at bar `i` sees bar `i - 1` as `prev`.  Part 1 (trend LONG throughout):
the bar closing below the fast EMA emits nothing (it arms the pullback),
the next bar closing back above emits LONG exactly once, and a further bar
still above emits nothing again.  Part 2: the armed state may persist —
with an intermediate bar still below the fast EMA, the signal fires on the
later returning bar only.  Parts 3 and 4 are the SHORT symmetric cases. -/
theorem C2_arm_trigger_cycle :
    (∀ c0 f0 c1 f1 s1 c2 f2 s2 c3 f3 s3 : ℚ,
      s1 < f1 → s2 < f2 → s3 < f3 →
      c1 < f1 → f2 < c2 → f3 < c3 →
      signal_cross50_with_bias EPS c0 f0 c1 f1 s1 = none ∧
      signal_cross50_with_bias EPS c1 f1 c2 f2 s2 = some Sig.LONG ∧
      signal_cross50_with_bias EPS c2 f2 c3 f3 s3 = none) ∧
    (∀ c1 f1 c2 f2 s2 c3 f3 s3 : ℚ,
      s2 < f2 → s3 < f3 →
      c1 < f1 → c2 < f2 → f3 < c3 →
      signal_cross50_with_bias EPS c1 f1 c2 f2 s2 = none ∧
      signal_cross50_with_bias EPS c2 f2 c3 f3 s3 = some Sig.LONG) ∧
    (∀ c0 f0 c1 f1 s1 c2 f2 s2 c3 f3 s3 : ℚ,
      f1 < s1 → f2 < s2 → f3 < s3 →
      f1 < c1 → c2 < f2 → c3 < f3 →
      signal_cross50_with_bias EPS c0 f0 c1 f1 s1 = none ∧
      signal_cross50_with_bias EPS c1 f1 c2 f2 s2 = some Sig.SHORT ∧
      signal_cross50_with_bias EPS c2 f2 c3 f3 s3 = none) ∧
    (∀ c1 f1 c2 f2 s2 c3 f3 s3 : ℚ,
      f2 < s2 → f3 < s3 →
      f1 < c1 → f2 < c2 → c3 < f3 →
      signal_cross50_with_bias EPS c1 f1 c2 f2 s2 = none ∧
      signal_cross50_with_bias EPS c2 f2 c3 f3 s3 = some Sig.SHORT) := by
  refine ⟨?_, ?_, ?_, ?_⟩
  · intro c0 f0 c1 f1 s1 c2 f2 s2 c3 f3 s3 h1 h2 h3 d1 d2 d3
    unfold signal_cross50_with_bias EPS
    refine ⟨?_, ?_, ?_⟩
    · rw [if_pos (show f1 - s1 > (0 : ℚ) by linarith),
        if_neg (show ¬(c0 < f0 - 0 ∧ c1 > f1 + 0) from fun h => by linarith [h.2])]
    · rw [if_pos (show f2 - s2 > (0 : ℚ) by linarith),
        if_pos (show c1 < f1 - 0 ∧ c2 > f2 + 0 from ⟨by linarith, by linarith⟩)]
    · rw [if_pos (show f3 - s3 > (0 : ℚ) by linarith),
        if_neg (show ¬(c2 < f2 - 0 ∧ c3 > f3 + 0) from fun h => by linarith [h.1])]
  · intro c1 f1 c2 f2 s2 c3 f3 s3 h2 h3 d1 d2 d3
    unfold signal_cross50_with_bias EPS
    refine ⟨?_, ?_⟩
    · rw [if_pos (show f2 - s2 > (0 : ℚ) by linarith),
        if_neg (show ¬(c1 < f1 - 0 ∧ c2 > f2 + 0) from fun h => by linarith [h.2])]
    · rw [if_pos (show f3 - s3 > (0 : ℚ) by linarith),
        if_pos (show c2 < f2 - 0 ∧ c3 > f3 + 0 from ⟨by linarith, by linarith⟩)]
  · intro c0 f0 c1 f1 s1 c2 f2 s2 c3 f3 s3 h1 h2 h3 d1 d2 d3
    unfold signal_cross50_with_bias EPS
    refine ⟨?_, ?_, ?_⟩
    · rw [if_neg (show ¬(f1 - s1 > (0 : ℚ)) by push_neg; linarith),
        if_pos (show s1 - f1 > (0 : ℚ) by linarith),
        if_neg (show ¬(c0 > f0 + 0 ∧ c1 < f1 - 0) from fun h => by linarith [h.2])]
    · rw [if_neg (show ¬(f2 - s2 > (0 : ℚ)) by push_neg; linarith),
        if_pos (show s2 - f2 > (0 : ℚ) by linarith),
        if_pos (show c1 > f1 + 0 ∧ c2 < f2 - 0 from ⟨by linarith, by linarith⟩)]
    · rw [if_neg (show ¬(f3 - s3 > (0 : ℚ)) by push_neg; linarith),
        if_pos (show s3 - f3 > (0 : ℚ) by linarith),
        if_neg (show ¬(c2 > f2 + 0 ∧ c3 < f3 - 0) from fun h => by linarith [h.1])]
  · intro c1 f1 c2 f2 s2 c3 f3 s3 h2 h3 d1 d2 d3
    unfold signal_cross50_with_bias EPS
    refine ⟨?_, ?_⟩
    · rw [if_neg (show ¬(f2 - s2 > (0 : ℚ)) by push_neg; linarith),
        if_pos (show s2 - f2 > (0 : ℚ) by linarith),
        if_neg (show ¬(c1 > f1 + 0 ∧ c2 < f2 - 0) from fun h => by linarith [h.2])]
    · rw [if_neg (show ¬(f3 - s3 > (0 : ℚ)) by push_neg; linarith),
        if_pos (show s3 - f3 > (0 : ℚ) by linarith),
        if_pos (show c2 > f2 + 0 ∧ c3 < f3 - 0 from ⟨by linarith, by linarith⟩)]

/-- Witness for C2 at concrete prices (fast EMA 10, slow EMA 5 for LONG,
fast 10, slow 15 for SHORT). -/
theorem C2_arm_trigger_cycle_witness :
    (signal_cross50_with_bias EPS 0 0 9 10 5 = none ∧
     signal_cross50_with_bias EPS 9 10 11 10 5 = some Sig.LONG ∧
     signal_cross50_with_bias EPS 11 10 12 10 5 = none) ∧
    (signal_cross50_with_bias EPS 9 10 8 10 5 = none ∧
     signal_cross50_with_bias EPS 8 10 11 10 5 = some Sig.LONG) ∧
    (signal_cross50_with_bias EPS 0 0 11 10 15 = none ∧
     signal_cross50_with_bias EPS 11 10 9 10 15 = some Sig.SHORT ∧
     signal_cross50_with_bias EPS 9 10 8 10 15 = none) ∧
    (signal_cross50_with_bias EPS 11 10 12 10 15 = none ∧
     signal_cross50_with_bias EPS 12 10 9 10 15 = some Sig.SHORT) := by
  have h := C2_arm_trigger_cycle
  refine ⟨h.1 0 0 9 10 5 11 10 5 12 10 5 ?_ ?_ ?_ ?_ ?_ ?_,
          h.2.1 9 10 8 10 5 11 10 5 ?_ ?_ ?_ ?_ ?_,
          h.2.2.1 0 0 11 10 15 9 10 15 8 10 15 ?_ ?_ ?_ ?_ ?_ ?_,
          h.2.2.2 11 10 12 10 15 9 10 15 ?_ ?_ ?_ ?_ ?_⟩ <;> norm_num

theorem emaSpecRec_cons (alpha e c : ℚ) (cs : List ℚ) (i : ℕ) :
    emaSpecRec alpha e (c :: cs) (i + 1) =
      emaSpecRec alpha (e + alpha * (c - e)) cs i := by
  induction i with
  | zero => simp [emaSpecRec]
  | succ n ih =>
    show emaSpecRec alpha e (c :: cs) (n + 1 + 1) = _
    rw [emaSpecRec, ih]
    simp [emaSpecRec, List.getD_cons_succ]

theorem ewm_go_length (alpha : ℚ) : ∀ (cs : List ℚ) (e : ℚ),
    (ewm_go alpha e cs).length = cs.length + 1 := by
  intro cs
  induction cs with
  | nil => intro e; rfl
  | cons c cs ih => intro e; simp [ewm_go, ih]

theorem ewm_go_getElem? (alpha : ℚ) : ∀ (cs : List ℚ) (e : ℚ) (i : ℕ),
    i ≤ cs.length →
    (ewm_go alpha e cs)[i]? = some (emaSpecRec alpha e cs i) := by
  intro cs
  induction cs with
  | nil =>
    intro e i hi
    have hz : i = 0 := Nat.le_zero.mp (by simpa using hi)
    subst hz
    simp [ewm_go, emaSpecRec]
  | cons c cs ih =>
    intro e i hi
    cases i with
    | zero => simp [ewm_go, emaSpecRec]
    | succ n =>
      rw [ewm_go, List.getElem?_cons_succ, ih (ema_step alpha e c) n (by simpa using hi),
        emaSpecRec_cons]
      rfl

theorem mask_min_periods_getElem? (p : ℕ) : ∀ (l : List ℚ) (s i : ℕ) (y : ℚ),
    l[i]? = some y →
    (mask_min_periods p s l)[i]? =
      some (if p ≤ s + i + 1 then some y else none) := by
  intro l
  induction l with
  | nil => intro s i y hy; simp at hy
  | cons a l ih =>
    intro s i y hy
    cases i with
    | zero =>
      simp only [List.getElem?_cons_zero, Option.some.injEq] at hy
      subst hy
      simp [mask_min_periods]
    | succ n =>
      rw [List.getElem?_cons_succ] at hy
      rw [mask_min_periods, List.getElem?_cons_succ, ih (s + 1) n y hy]
      have : s + 1 + n + 1 = s + (n + 1) + 1 := by omega
      rw [this]

theorem ema_col_getElem? (period : ℕ) (c0 : ℚ) (cs : List ℚ) (i : ℕ)
    (h1 : period ≤ i + 1) (h2 : i ≤ cs.length) :
    (ema_col period (c0 :: cs))[i]? =
      some (some (emaSpecRec (2 / ((period : ℚ) + 1)) c0 cs i)) := by
  unfold ema_col ewm_adjust_false
  rw [mask_min_periods_getElem? period _ 0 i _ (ewm_go_getElem? _ cs c0 i h2)]
  rw [if_pos (by omega)]

/-- Length of the closes column. -/
theorem closes_length (l : List Bar) : (closes l).length = l.length := by
  simp [closes]

/-- A successful seed stores exactly `seeded_state` of the prepared frame. -/
theorem seed_from_history_success (cfg : Config) (inSession : ℤ → Bool)
    (bars : List Bar) (st : MonState)
    (h : (seed_from_history cfg inSession bars st).1 = true) :
    (seed_from_history cfg inSession bars st).2 =
      seeded_state cfg (prep_bars cfg inSession bars) := by
  unfold seed_from_history at h ⊢
  dsimp only at h ⊢
  split_ifs at h ⊢
  all_goals simp_all

theorem ta_EMA_sma_seed (p : ℕ) (xs : List ℚ) (h1 : 1 ≤ p)
    (h2 : p ≤ xs.length) :
    (ta_EMA p xs)[p - 1]? = some (some ((xs.take p).sum / (p : ℚ))) := by
  unfold ta_EMA
  rw [if_pos ⟨h2, h1⟩, List.getElem?_append_right (by simp)]
  simp only [List.length_replicate, Nat.sub_self]
  cases xs.drop p with
  | nil => simp [ewm_go]
  | cons a l => simp [ewm_go]

/-- C3 counterexample: when the optional TA-Lib dependency imports,
`ema` delegates to `ta.EMA`, which seeds with the simple moving average
of the first `period` samples rather than the first sample.  On fifty
closes `1, 0, 0, …, 0` the first defined fast-EMA output (index 49) is
the SMA `1/50`, which differs from the value `(49/51)^49` demanded by the
claimed first-sample recurrence. -/
theorem C3_counterexample_talib_sma_seed :
    (ema_indicator true 50 ((1 : ℚ) :: List.replicate 49 0))[49]? =
      some (some (1 / 50)) ∧
    (ema_indicator true 50 ((1 : ℚ) :: List.replicate 49 0))[49]? ≠
      some (some (emaSpecRec (2 / (50 + 1)) 1 (List.replicate 49 0) 49)) := by
  decide

/-- C3 amended: the seeding of the EMAs depends on which branch of `ema`
runs.  Without TA-Lib (the in-repository pandas fallback, used by the
seed computation), the fast (50) and slow (200) EMA columns over a
filtered bar sequence accepted by seed follow the claimed recurrence
`EMA[0] = close[0]`, `EMA[i] = EMA[i-1] + alpha * (close[i] - EMA[i-1])`
with `alpha = 2 / (period + 1)`, seeded by the first sample of the entire
sequence, and the values stored for the current bar are exactly the last
entries of those columns.  With TA-Lib importable, `ema` delegates to
`ta.EMA`, whose first defined output is the simple moving average of the
first `period` samples — not the first-sample seed the claim requires. -/
theorem C3_amended_ema_recurrence (cfg : Config) (inSession : ℤ → Bool)
    (bars : List Bar) (st : MonState) (c0 : ℚ) (cs : List ℚ)
    (haccept : (seed_from_history cfg inSession bars st).1 = true)
    (hcl : closes (prep_bars cfg inSession bars) = c0 :: cs) :
    (∀ i, 50 ≤ i + 1 → i ≤ cs.length →
      (ema_indicator false 50 (c0 :: cs))[i]? =
        some (some (emaSpecRec (2 / (50 + 1)) c0 cs i))) ∧
    (∀ i, 200 ≤ i + 1 → i ≤ cs.length →
      (ema_indicator false 200 (c0 :: cs))[i]? =
        some (some (emaSpecRec (2 / (200 + 1)) c0 cs i))) ∧
    (seed_from_history cfg inSession bars st).2.curr_e50 =
      (ema_indicator false 50 (c0 :: cs)).getD cs.length none ∧
    (seed_from_history cfg inSession bars st).2.curr_e200_base =
      (ema_indicator false 200 (c0 :: cs)).getD cs.length none ∧
    (∀ p : ℕ, 1 ≤ p → p ≤ cs.length + 1 →
      (ema_indicator true p (c0 :: cs))[p - 1]? =
        some (some (((c0 :: cs).take p).sum / (p : ℚ)))) := by
  have hn : (prep_bars cfg inSession bars).length = cs.length + 1 := by
    rw [← closes_length, hcl]
    simp
  have hfb : ∀ (p : ℕ) (xs : List ℚ), ema_indicator false p xs = ema_col p xs :=
    fun _ _ => rfl
  refine ⟨?_, ?_, ?_, ?_, ?_⟩
  · intro i hi hile
    rw [hfb]
    have := ema_col_getElem? 50 c0 cs i hi hile
    norm_num at this ⊢
    exact this
  · intro i hi hile
    rw [hfb]
    have := ema_col_getElem? 200 c0 cs i hi hile
    norm_num at this ⊢
    exact this
  · rw [hfb, seed_from_history_success cfg inSession bars st haccept]
    unfold seeded_state
    rw [hcl, hn]
    simp
  · rw [hfb, seed_from_history_success cfg inSession bars st haccept]
    unfold seeded_state
    rw [hcl, hn]
    simp
  · intro p hp1 hp2
    show (ta_EMA p (c0 :: cs))[p - 1]? = _
    exact ta_EMA_sma_seed p (c0 :: cs) hp1 (by simpa using hp2)

/-- Witness for C3 amended: the default configuration accepts a 205-bar
constant history; the fallback conjuncts are instantiated at the last
index and the TA-Lib conjunct at the fast period. -/
theorem C3_amended_ema_recurrence_witness :
    (ema_indicator false 50 ((1 : ℚ) :: List.replicate 204 1))[204]? =
      some (some (emaSpecRec (2 / (50 + 1)) 1 (List.replicate 204 1) 204)) ∧
    (ema_indicator false 200 ((1 : ℚ) :: List.replicate 204 1))[204]? =
      some (some (emaSpecRec (2 / (200 + 1)) 1 (List.replicate 204 1) 204)) ∧
    (seed_from_history defaultConfig (fun _ => true) bars205 initState).2.curr_e50 =
      (ema_indicator false 50 ((1 : ℚ) :: List.replicate 204 1)).getD 204 none ∧
    (ema_indicator true 50 ((1 : ℚ) :: List.replicate 204 1))[50 - 1]? =
      some (some ((((1 : ℚ) :: List.replicate 204 1).take 50).sum /
        ((50 : ℕ) : ℚ))) := by
  have h := C3_amended_ema_recurrence defaultConfig (fun _ => true) bars205
    initState 1 (List.replicate 204 1) (by decide) (by decide)
  exact ⟨h.1 204 (by omega) (by simp), h.2.1 204 (by omega) (by simp),
    h.2.2.1, h.2.2.2.2 50 (by omega) (by simp)⟩

theorem poll_fill_price_go_eq_none (pollTrades : ℕ → List Trade) (cid : String) :
    ∀ (fuel waited : ℕ),
      (∀ i, waited ≤ i → i < waited + fuel →
        find_fill_in_trades (pollTrades i) cid = none) →
      poll_fill_price_go pollTrades cid waited fuel = none := by
  intro fuel
  induction fuel with
  | zero => intro waited _; rfl
  | succ n ih =>
    intro waited h
    have h0 := h waited le_rfl (by omega)
    simp only [poll_fill_price_go, h0]
    exact ih (waited + 1) (fun i h1 h2 => h i (by omega) (by omega))

/-- C7: when no matching, parseable fill price is discovered during the 30
one-second polling attempts, `_place_market_and_brackets` terminates with
only the parent market order placed: no take-profit or stop-loss leg and
no exit prices are ever produced for that parent. -/
theorem C7_fill_timeout_only_parent (pollTrades : ℕ → List Trade)
    (cid : String) (side parentId tpId slId : ℕ)
    (tp_points sl_points tick : ℚ)
    (hnone : ∀ i, i < MAX_WAIT_SEC → find_fill_in_trades (pollTrades i) cid = none) :
    place_market_and_brackets pollTrades cid side parentId tpId slId
        tp_points sl_points tick =
      ⟨some parentId, none, none, none, none, none⟩ := by
  have hp : poll_fill_price pollTrades cid MAX_WAIT_SEC = none :=
    poll_fill_price_go_eq_none pollTrades cid MAX_WAIT_SEC 0
      (fun i _ h2 => hnone i (by omega))
  unfold place_market_and_brackets
  rw [hp]
  rfl

/-- Witness for C7: a broker that reports no trades at all. -/
theorem C7_fill_timeout_only_parent_witness :
    place_market_and_brackets (fun _ => []) "CON.F.US.MNQ.U25" 1 11 12 13
        8 4 (1 / 4) =
      ⟨some 11, none, none, none, none, none⟩ :=
  C7_fill_timeout_only_parent (fun _ => []) "CON.F.US.MNQ.U25" 1 11 12 13
    8 4 (1 / 4) (fun _ _ => rfl)

/-- C10 counterexample: `_recalc_tail` performs no check that the final
EMA values are defined.  With `REQUIRED_BARS = 5` and five bars, the EMA
columns are entirely NaN (fewer than `period` samples), yet the call
reports success and overwrites every field of a previously healthy seeded
state with undefined values — neither a failure result nor an unchanged
state. -/
theorem C10_counterexample_recalc_stores_undefined :
    (recalc_tail cfgSmall (fun _ => true) barsSmall stSeeded).1 = true ∧
    (recalc_tail cfgSmall (fun _ => true) barsSmall stSeeded).2.curr_e50 = none ∧
    (recalc_tail cfgSmall (fun _ => true) barsSmall stSeeded).2 ≠ stSeeded := by
  decide

/-- C10 amended: `_seed_from_history` is atomic on every failure (too few
bars after filtering, or undefined final EMA values): it returns a failure
result with every state field untouched.  `_recalc_tail` is atomic on its
failures too, but its only failure conditions are an empty raw frame or
too few bars after filtering — it has no undefined-EMA check (see the
counterexample).  The hypothesis `2 ≤ requiredBars` keeps the model inside
the region where the Python code does not raise on `df.iloc[-2]`. -/
theorem C10_amended_atomic_failures (cfg : Config) (inSession : ℤ → Bool)
    (bars : List Bar) (st : MonState) (_hreq : 2 ≤ cfg.requiredBars) :
    ((seed_from_history cfg inSession bars st).1 = false →
      (seed_from_history cfg inSession bars st).2 = st) ∧
    ((recalc_tail cfg inSession bars st).1 = false →
      (recalc_tail cfg inSession bars st).2 = st) ∧
    ((recalc_tail cfg inSession bars st).1 = false ↔
      bars = [] ∨ (prep_bars cfg inSession bars).length < cfg.requiredBars) := by
  refine ⟨?_, ?_, ?_⟩
  · intro h
    unfold seed_from_history at h ⊢
    dsimp only at h ⊢
    split_ifs at h ⊢
    all_goals simp_all
  · intro h
    unfold recalc_tail at h ⊢
    dsimp only at h ⊢
    split_ifs at h ⊢
    all_goals simp_all
  · unfold recalc_tail
    dsimp only
    split_ifs with h1 h2
    all_goals simp_all [List.isEmpty_iff]

/-- Witness for C10 amended, at an empty bar frame. -/
theorem C10_amended_atomic_failures_witness :
    (seed_from_history cfgSmall (fun _ => true) [] stSeeded).2 = stSeeded ∧
    (recalc_tail cfgSmall (fun _ => true) [] stSeeded).2 = stSeeded ∧
    (recalc_tail cfgSmall (fun _ => true) [] stSeeded).1 = false := by
  have h := C10_amended_atomic_failures cfgSmall (fun _ => true) [] stSeeded (by decide)
  exact ⟨h.1 (by decide), h.2.1 (by decide), (h.2.2).mpr (Or.inl rfl)⟩

theorem drop_getLast? {α : Type} : ∀ (l : List α) (k : ℕ), k < l.length →
    (l.drop k).getLast? = l.getLast? := by
  intro l
  induction l with
  | nil => intro k hk; simp at hk
  | cons a l ih =>
    intro k hk
    cases k with
    | zero => rfl
    | succ n =>
      rw [List.drop_succ_cons]
      have hn : n < l.length := by simpa using hk
      rw [ih n hn]
      cases l with
      | nil => simp at hn
      | cons b l2 => rw [List.getLast?_cons_cons]

theorem seqOpt_mem_ne_none : ∀ (l : List (Option ℚ)) (v : List ℚ),
    seqOpt l = some v → ∀ x ∈ l, x ≠ none := by
  intro l
  induction l with
  | nil => intro v _ x hx; simp at hx
  | cons a l ih =>
    intro v hv x hx
    cases a with
    | none => simp [seqOpt] at hv
    | some y =>
      rw [seqOpt] at hv
      cases hsq : seqOpt l with
      | none => rw [hsq] at hv; simp at hv
      | some w =>
        rcases List.mem_cons.mp hx with h | h
        · subst h; simp
        · exact ih w hsq x h

theorem seqOpt_length : ∀ (l : List (Option ℚ)) (v : List ℚ),
    seqOpt l = some v → v.length = l.length := by
  intro l
  induction l with
  | nil =>
    intro v hv
    simp only [seqOpt, Option.some.injEq] at hv
    subst hv
    rfl
  | cons a l ih =>
    intro v hv
    cases a with
    | none => simp [seqOpt] at hv
    | some y =>
      rw [seqOpt] at hv
      cases hsq : seqOpt l with
      | none => rw [hsq] at hv; simp at hv
      | some w =>
        rw [hsq] at hv
        simp only [Option.map_some', Option.some.injEq] at hv
        subst hv
        simp [ih w hsq]

theorem mask_min_periods_length (p : ℕ) : ∀ (l : List ℚ) (s : ℕ),
    (mask_min_periods p s l).length = l.length := by
  intro l
  induction l with
  | nil => intro s; rfl
  | cons a l ih => intro s; simp [mask_min_periods, ih]

theorem ema_col_length (p : ℕ) (xs : List ℚ) :
    (ema_col p xs).length = xs.length := by
  unfold ema_col ewm_adjust_false
  cases xs with
  | nil => rfl
  | cons c cs => rw [mask_min_periods_length, ewm_go_length]; rfl

theorem rolling_mean_getD (k : ℕ) (l : List (Option ℚ)) (i : ℕ)
    (h : i < l.length) :
    (rolling_mean k l).getD i none = window_mean k l i := by
  unfold rolling_mean
  rw [List.getD_eq_getElem?_getD, List.getElem?_map, List.getElem?_range h]
  rfl

theorem getLast?_eq_getD (l : List (Option ℚ)) (h : l ≠ []) :
    l.getLast? = some (l.getD (l.length - 1) none) := by
  have hlt : l.length - 1 < l.length := by
    have := List.length_pos.mpr h
    omega
  rw [List.getLast?_eq_getElem?, List.getElem?_eq_getElem hlt,
    List.getD_eq_getElem?_getD, List.getElem?_eq_getElem hlt]
  rfl

theorem isSuffix_append_singleton {α : Type} {l h : List α} (x : α)
    (hs : l <:+ h) : l ++ [x] <:+ h ++ [x] := by
  obtain ⟨t, ht⟩ := hs
  exact ⟨t, by rw [← ht, List.append_assoc]⟩

theorem advInv_push (cfg : Config) (H buf : List (Option ℚ)) (v : ℚ)
    (hK : 1 ≤ cfg.smoothLen)
    (hlen : buf.length ≤ cfg.smoothLen)
    (hsome : ∀ x ∈ buf, x ≠ none)
    (hsuf : buf <:+ H) :
    (if cfg.smoothLen < (buf ++ [some v]).length then (buf ++ [some v]).drop 1
      else buf ++ [some v]).length ≤ cfg.smoothLen ∧
    (∀ x ∈ (if cfg.smoothLen < (buf ++ [some v]).length then (buf ++ [some v]).drop 1
      else buf ++ [some v]), x ≠ none) ∧
    (if cfg.smoothLen < (buf ++ [some v]).length then (buf ++ [some v]).drop 1
      else buf ++ [some v]) <:+ H ++ [some v] ∧
    (if cfg.smoothLen < (buf ++ [some v]).length then (buf ++ [some v]).drop 1
      else buf ++ [some v]).getLast? = some (some v) := by
  have hlen1 : (buf ++ [some v]).length = buf.length + 1 := by simp
  have hsome1 : ∀ x ∈ buf ++ [some v], x ≠ none := by
    intro x hx
    rcases List.mem_append.mp hx with h | h
    · exact hsome x h
    · simp only [List.mem_singleton] at h
      subst h
      simp
  have hsuf1 : buf ++ [some v] <:+ H ++ [some v] :=
    isSuffix_append_singleton _ hsuf
  have hlast1 : (buf ++ [some v]).getLast? = some (some v) :=
    List.getLast?_concat _
  by_cases hc : cfg.smoothLen < (buf ++ [some v]).length
  · rw [if_pos hc]
    refine ⟨?_, ?_, ?_, ?_⟩
    · rw [List.length_drop]
      omega
    · intro x hx
      exact hsome1 x (List.mem_of_mem_drop hx)
    · exact (List.drop_suffix 1 _).trans hsuf1
    · rw [drop_getLast? _ 1 (by omega), hlast1]
  · rw [if_neg hc]
    exact ⟨by omega, hsome1, hsuf1, hlast1⟩

theorem advInv_step (cfg : Config) (H : List (Option ℚ)) (st : MonState)
    (ts : ℤ) (c : ℚ) (h : advInv cfg H st) :
    advInv cfg (H ++ advance_emits st ts c) (advance_incremental cfg st ts c) := by
  obtain ⟨hlen, hsome, hon, hoff⟩ := h
  have hcore : advInv cfg
      (H ++ (match st.curr_e50, st.curr_e200_base with
        | some _, some p => [some (p + alpha200 * (c - p))]
        | _, _ => []))
      (advance_core cfg st ts c) := by
    unfold advance_core
    cases h50 : st.curr_e50 with
    | none =>
      simp only [h50, List.append_nil]
      exact ⟨hlen, hsome, hon, hoff⟩
    | some pe50 =>
      cases h200 : st.curr_e200_base with
      | none =>
        simp only [h50, h200, List.append_nil]
        refine ⟨hlen, hsome, fun hs => ?_, fun hs => ?_⟩
        · have hh := hon hs
          rw [h200] at hh
          exact hh
        · have hh := hoff hs
          rw [h200] at hh
          exact hh
      | some pe200 =>
        simp only [h50, h200]
        by_cases hsm : cfg.smoothSma = true ∧ 1 < cfg.smoothLen
        · rw [if_pos hsm]
          obtain ⟨hsuf, _, _⟩ := hon hsm
          have hp := advInv_push cfg H st.ema200_buf
            (pe200 + alpha200 * (c - pe200)) (by omega) hlen hsome hsuf
          refine ⟨hp.1, hp.2.1, fun _ => ⟨hp.2.2.1, hp.2.2.2, rfl⟩,
            fun hns => absurd hsm hns⟩
        · rw [if_neg hsm]
          refine ⟨hlen, hsome, fun hs => absurd hs hsm, fun _ => rfl⟩
  unfold advance_incremental advance_emits
  cases hts : st.curr_ts with
  | none => exact hcore
  | some t =>
    dsimp only
    by_cases hlt : t < ts
    · rw [if_pos hlt, if_pos hlt]
      exact hcore
    · rw [if_neg hlt, if_neg hlt, List.append_nil]
      exact ⟨hlen, hsome, hon, hoff⟩

theorem advInv_many (cfg : Config) : ∀ (l : List (ℤ × ℚ)) (st : MonState)
    (H : List (Option ℚ)), advInv cfg H st →
    advInv cfg (H ++ advance_base_trace cfg st l) (advance_many cfg st l) := by
  intro l
  induction l with
  | nil =>
    intro st H h
    simpa [advance_base_trace, advance_many] using h
  | cons a rest ih =>
    intro st H h
    obtain ⟨ts, c⟩ := a
    have h2 := ih (advance_incremental cfg st ts c) (H ++ advance_emits st ts c)
      (advInv_step cfg H st ts c h)
    simpa [advance_base_trace, advance_many, List.append_assoc] using h2

theorem advance_buf_constant (cfg : Config)
    (hdis : ¬(cfg.smoothSma = true ∧ 1 < cfg.smoothLen)) :
    ∀ (l : List (ℤ × ℚ)) (st : MonState),
    (advance_many cfg st l).ema200_buf = st.ema200_buf := by
  have hstep : ∀ (st : MonState) (ts : ℤ) (c : ℚ),
      (advance_incremental cfg st ts c).ema200_buf = st.ema200_buf := by
    intro st ts c
    have hcore : (advance_core cfg st ts c).ema200_buf = st.ema200_buf := by
      unfold advance_core
      cases st.curr_e50 with
      | none => rfl
      | some pe50 =>
        cases st.curr_e200_base with
        | none => rfl
        | some pe200 =>
          dsimp only
          rw [if_neg hdis]
    unfold advance_incremental
    cases st.curr_ts with
    | none => exact hcore
    | some t =>
      dsimp only
      by_cases hlt : t < ts
      · rw [if_pos hlt]
        exact hcore
      · rw [if_neg hlt]
  intro l
  induction l with
  | nil => intro st; rfl
  | cons a rest ih =>
    intro st
    obtain ⟨ts, c⟩ := a
    rw [advance_many, ih, hstep]

theorem seed_success_checks (cfg : Config) (inSession : ℤ → Bool)
    (bars : List Bar) (st : MonState)
    (h : (seed_from_history cfg inSession bars st).1 = true) :
    cfg.requiredBars ≤ (prep_bars cfg inSession bars).length ∧
    (shown_e200_col cfg (ema_col 200 (closes (prep_bars cfg inSession bars)))).getD
      ((prep_bars cfg inSession bars).length - 1) none ≠ none ∧
    (ema_col 50 (closes (prep_bars cfg inSession bars))).getD
      ((prep_bars cfg inSession bars).length - 1) none ≠ none := by
  unfold seed_from_history at h
  dsimp only at h
  split_ifs at h with h1 h2
  push_neg at h2
  exact ⟨by omega, h2.1, h2.2⟩

theorem seeded_advInv (cfg : Config) (df : List Bar) (hK : 1 ≤ cfg.smoothLen)
    (hshown : (shown_e200_col cfg (ema_col 200 (closes df))).getD
      (df.length - 1) none ≠ none) :
    advInv cfg (ema_col 200 (closes df)) (seeded_state cfg df) := by
  have hbuf : (seeded_state cfg df).ema200_buf =
      (ema_col 200 (closes df)).drop ((ema_col 200 (closes df)).length -
        max 1 (if cfg.smoothSma = true then cfg.smoothLen else 1)) := rfl
  have hcurrShown : (seeded_state cfg df).curr_e200 =
      (shown_e200_col cfg (ema_col 200 (closes df))).getD (df.length - 1) none := rfl
  have hcurrBase : (seeded_state cfg df).curr_e200_base =
      (ema_col 200 (closes df)).getD (df.length - 1) none := rfl
  have hBlen : (ema_col 200 (closes df)).length = df.length := by
    rw [ema_col_length, closes_length]
  have hBne : ema_col 200 (closes df) ≠ [] := by
    intro hnil
    rw [shown_e200_col, hnil] at hshown
    by_cases hsm : cfg.smoothSma = true ∧ 1 < cfg.smoothLen
    · rw [if_pos hsm] at hshown
      simp [rolling_mean] at hshown
    · rw [if_neg hsm] at hshown
      simp at hshown
  have hn : 1 ≤ df.length := by
    rcases Nat.eq_zero_or_pos df.length with h0 | h1
    · exact absurd (List.length_eq_zero.mp (hBlen.trans h0)) hBne
    · exact h1
  by_cases hsm : cfg.smoothSma = true ∧ 1 < cfg.smoothLen
  · -- smoothing active
    have hbuf2 : (seeded_state cfg df).ema200_buf =
        (ema_col 200 (closes df)).drop (df.length - cfg.smoothLen) := by
      rw [hbuf, if_pos hsm.1, hBlen]
      have : max 1 cfg.smoothLen = cfg.smoothLen := by omega
      rw [this]
    rw [shown_e200_col, if_pos hsm] at hshown
    have hgd : (rolling_mean cfg.smoothLen (ema_col 200 (closes df))).getD
        (df.length - 1) none =
        window_mean cfg.smoothLen (ema_col 200 (closes df)) (df.length - 1) :=
      rolling_mean_getD _ _ _ (by rw [hBlen]; omega)
    rw [hgd] at hshown
    rw [window_mean] at hshown
    by_cases hKn : cfg.smoothLen ≤ df.length - 1 + 1
    swap
    · rw [if_neg hKn] at hshown
      exact absurd rfl hshown
    rw [if_pos hKn] at hshown
    have hidx : df.length - 1 + 1 - cfg.smoothLen = df.length - cfg.smoothLen := by
      omega
    rw [hidx] at hshown
    have hdlen : ((ema_col 200 (closes df)).drop
        (df.length - cfg.smoothLen)).length = cfg.smoothLen := by
      rw [List.length_drop, hBlen]
      omega
    have htake : ((ema_col 200 (closes df)).drop
        (df.length - cfg.smoothLen)).take cfg.smoothLen =
        (ema_col 200 (closes df)).drop (df.length - cfg.smoothLen) :=
      List.take_of_length_le (by omega)
    rw [htake] at hshown
    cases hseq : seqOpt ((ema_col 200 (closes df)).drop
        (df.length - cfg.smoothLen)) with
    | none => rw [hseq] at hshown; exact absurd rfl hshown
    | some vs =>
      have hvslen : vs.length = cfg.smoothLen := by
        rw [seqOpt_length _ vs hseq, hdlen]
      refine ⟨?_, ?_, fun _ => ⟨?_, ?_, ?_⟩, fun hns => absurd hsm hns⟩
      · rw [hbuf2, hdlen]
      · rw [hbuf2]
        exact seqOpt_mem_ne_none _ vs hseq
      · rw [hbuf2]
        exact List.drop_suffix _ _
      · rw [hbuf2, hcurrBase,
          drop_getLast? (ema_col 200 (closes df)) (df.length - cfg.smoothLen)
            (by rw [hBlen]; omega),
          getLast?_eq_getD _ hBne, hBlen]
      · rw [hbuf2, hcurrShown, shown_e200_col, if_pos hsm, hgd, window_mean,
          if_pos hKn, hidx, htake, hseq, mean_opt, hseq]
        dsimp only
        rw [hvslen]
  · -- smoothing inactive
    rw [shown_e200_col, if_neg hsm] at hshown
    have hbuf2 : (seeded_state cfg df).ema200_buf =
        (ema_col 200 (closes df)).drop (df.length - 1) := by
      rw [hbuf, hBlen]
      have : max 1 (if cfg.smoothSma = true then cfg.smoothLen else 1) = 1 := by
        by_cases hsma : cfg.smoothSma = true
        · have : ¬1 < cfg.smoothLen := fun hgt => hsm ⟨hsma, hgt⟩
          rw [if_pos hsma]
          omega
        · rw [if_neg hsma]
          omega
      rw [this]
    have hdlen : ((ema_col 200 (closes df)).drop (df.length - 1)).length = 1 := by
      rw [List.length_drop, hBlen]
      omega
    obtain ⟨y, hy⟩ := List.length_eq_one.mp hdlen
    have hylast : ([y] : List (Option ℚ)).getLast? =
        some ((ema_col 200 (closes df)).getD (df.length - 1) none) := by
      rw [← hy,
        drop_getLast? (ema_col 200 (closes df)) (df.length - 1)
          (by rw [hBlen]; omega),
        getLast?_eq_getD _ hBne, hBlen]
    have hyval : y = (ema_col 200 (closes df)).getD (df.length - 1) none :=
      Option.some.inj hylast
    refine ⟨?_, ?_, fun hs => absurd hs hsm, fun _ => ?_⟩
    · rw [hbuf2, hdlen]
      exact hK
    · rw [hbuf2, hy]
      intro x hx
      rw [List.mem_singleton.mp hx, hyval]
      exact hshown
    · rw [hcurrShown, hcurrBase, shown_e200_col, if_neg hsm]

/-- C9: after a successful seed and any run of incremental advances, the
smoothing buffer length never exceeds the configured window `K`, the
buffer holds no undefined entries, and — with display smoothing active —
the buffer is a suffix of the stream of base (unsmoothed) slow-EMA values
(the seed's base EMA200 column followed by the bases computed by the
advances, most recent last, ending in the current base value) and the
displayed slow EMA is the arithmetic mean of the buffer; with smoothing
inactive the buffer stays the seed's suffix of base values and the
displayed slow EMA equals the base slow EMA. -/
theorem C9_smoothing_buffer (cfg : Config) (inSession : ℤ → Bool)
    (bars : List Bar) (st0 : MonState) (advs : List (ℤ × ℚ))
    (hK : 1 ≤ cfg.smoothLen)
    (haccept : (seed_from_history cfg inSession bars st0).1 = true) :
    (advance_many cfg (seed_from_history cfg inSession bars st0).2
      advs).ema200_buf.length ≤ cfg.smoothLen ∧
    (∀ x ∈ (advance_many cfg (seed_from_history cfg inSession bars st0).2
      advs).ema200_buf, x ≠ none) ∧
    (smoothingOn cfg →
      (advance_many cfg (seed_from_history cfg inSession bars st0).2
        advs).ema200_buf <:+
        ema_col 200 (closes (prep_bars cfg inSession bars)) ++
          advance_base_trace cfg (seed_from_history cfg inSession bars st0).2
            advs ∧
      (advance_many cfg (seed_from_history cfg inSession bars st0).2
        advs).ema200_buf.getLast? =
        some (advance_many cfg (seed_from_history cfg inSession bars st0).2
          advs).curr_e200_base ∧
      (advance_many cfg (seed_from_history cfg inSession bars st0).2
        advs).curr_e200 =
        mean_opt (advance_many cfg (seed_from_history cfg inSession bars st0).2
          advs).ema200_buf) ∧
    (¬smoothingOn cfg →
      (advance_many cfg (seed_from_history cfg inSession bars st0).2
        advs).ema200_buf <:+
        ema_col 200 (closes (prep_bars cfg inSession bars)) ∧
      (advance_many cfg (seed_from_history cfg inSession bars st0).2
        advs).curr_e200 =
        (advance_many cfg (seed_from_history cfg inSession bars st0).2
          advs).curr_e200_base) := by
  have hchecks := seed_success_checks cfg inSession bars st0 haccept
  have hseed := seed_from_history_success cfg inSession bars st0 haccept
  rw [hseed]
  have hbase := seeded_advInv cfg (prep_bars cfg inSession bars) hK hchecks.2.1
  have hmany := advInv_many cfg advs (seeded_state cfg (prep_bars cfg inSession bars))
    (ema_col 200 (closes (prep_bars cfg inSession bars))) hbase
  obtain ⟨l1, l2, l3, l4⟩ := hmany
  refine ⟨l1, l2, l3, fun hns => ⟨?_, l4 hns⟩⟩
  rw [advance_buf_constant cfg hns advs]
  unfold seeded_state seed_buf
  dsimp only
  rw [ema_col_length, closes_length]
  exact List.drop_suffix _ _

/-- Witness for C9: smoothing enabled (window 9), a 208-bar constant seed
accepted by `seed`, followed by one incremental advance. -/
theorem C9_smoothing_buffer_witness :
    (advance_many cfg9 (seed_from_history cfg9 (fun _ => true) bars208
      initState).2 [(187200, 2)]).ema200_buf.length ≤ 9 ∧
    (advance_many cfg9 (seed_from_history cfg9 (fun _ => true) bars208
      initState).2 [(187200, 2)]).curr_e200 =
      mean_opt (advance_many cfg9 (seed_from_history cfg9 (fun _ => true)
        bars208 initState).2 [(187200, 2)]).ema200_buf ∧
    (advance_many cfg9 (seed_from_history cfg9 (fun _ => true) bars208
      initState).2 [(187200, 2)]).ema200_buf.getLast? =
      some (advance_many cfg9 (seed_from_history cfg9 (fun _ => true) bars208
        initState).2 [(187200, 2)]).curr_e200_base := by
  have h := C9_smoothing_buffer cfg9 (fun _ => true) bars208 initState
    [(187200, 2)] (by decide) (by decide)
  have hs : smoothingOn cfg9 := by decide
  exact ⟨h.1, (h.2.2.1 hs).2.2, (h.2.2.1 hs).2.1⟩

end TraderDesk
